import Mathlib

/-!
The product store of graphQl.go.

A shallow embedding of the five resolvers of `graphQl.go` (product, list,
create, update, delete) over the global slice `products`.

Modelling conventions.

* The global `products` is a Go slice.  Between two resolver calls only the
  cells below its length are observable (every loop ranges over the length,
  `append` in create writes at the length), so the store handed from one call
  to the next is the list of those cells, `List Product`.
* Inside `delete` the slice is shifted in place while a `range` loop that
  captured the old slice header is still running; there the backing array
  and the current length are modelled separately (`DeleteState`).
* Go `int` and `int64` have the same width on the 64-bit targets of the
  server, so the conversions `int(x)` and `int64(x)` are the identity;
  integers are `Int`.
* A `float64` is only stored and copied, never computed with; it is carried
  as its IEEE-754 bit pattern.
* A run-time panic (failed single-value type assertion, index out of range)
  is `Except.error`; the `error` result of a resolver is the field `err`.
-/

namespace GraphQLAPI

/-- A Go `float64`, carried as its IEEE-754 binary64 bit pattern. -/
structure Float64 where
  bits : Nat
deriving DecidableEq, Repr

/-- The float64 constant 700 (sign 0, exponent 1023+9, fraction 0x5e000...). -/
def f700 : Float64 := ⟨0x4085e00000000000⟩

/-- The float64 constant 632 (sign 0, exponent 1023+9, fraction 0x3c000...). -/
def f632 : Float64 := ⟨0x4083c00000000000⟩

/-- The float64 constant 80 (sign 0, exponent 1023+6, fraction 0x40000...). -/
def f80 : Float64 := ⟨0x4054000000000000⟩

/-- The float64 constant 9.99, rounded to nearest. -/
def f9_99 : Float64 := ⟨0x4023fae147ae147b⟩

/-- Product contains information about one product (`type Product struct`). -/
structure Product where
  ID : Int
  Name : String
  Info : String
  Price : Float64
deriving DecidableEq, Repr

/-- The Go zero value `Product{}`. -/
def zeroProduct : Product := { ID := 0, Name := "", Info := "", Price := ⟨0⟩ }

/-- The seed store, `var products = []Product{...}`. -/
def products : List Product :=
  [ { ID := 1, Name := "product 1", Info := "product1 description", Price := f700 },
    { ID := 2, Name := "product 2", Info := "product2 description", Price := f632 },
    { ID := 3, Name := "product 3", Info := "product3 description", Price := f80 } ]

/-- A dynamically typed Go value as found in `ResolveParams.Args`. -/
inductive GoValue where
  | int (n : Int)
  | string (s : String)
  | float64 (f : Float64)
  | bool (b : Bool)
deriving DecidableEq, Repr

/-- The part of `graphql.ResolveParams` the resolvers read: the argument map.
A key that is absent and a key bound to nil both read as `none`. -/
structure ResolveParams where
  Args : List (String × GoValue)

/-- Map read `params.Args[key]`. -/
def ResolveParams.arg (p : ResolveParams) (key : String) : Option GoValue :=
  p.Args.lookup key

/-- Run-time panics the resolvers can raise. -/
inductive Panic where
  /-- A single-value type assertion `x.(T)` on a value that is not a `T`. -/
  | interfaceConversion (want : String)
  /-- Indexing `products[index]` with `index >= len(products)`. -/
  | indexOutOfRange (index length : Nat)
deriving DecidableEq, Repr

/-- What a resolver hands back: the `interface{}` value, the `error`, and the
contents of the global `products` when it returns. -/
structure Resolved (α : Type) where
  value : α
  err : Option String
  products : List Product
deriving DecidableEq, Repr

/-- Two-value assertion `v, ok := x.(int)`. -/
def assertInt : Option GoValue → Int × Bool
  | some (.int n) => (n, true)
  | _ => (0, false)

/-- Two-value assertion `v, ok := x.(string)`. -/
def assertString : Option GoValue → String × Bool
  | some (.string s) => (s, true)
  | _ => ("", false)

/-- Two-value assertion `v, ok := x.(float64)`. -/
def assertFloat64 : Option GoValue → Float64 × Bool
  | some (.float64 f) => (f, true)
  | _ => (⟨0⟩, false)

/-- Single-value assertion `x.(string)`: panics unless `x` holds a string. -/
def mustString : Option GoValue → Except Panic String
  | some (.string s) => .ok s
  | _ => .error (.interfaceConversion "string")

/-- Single-value assertion `x.(float64)`: panics unless `x` holds a float64. -/
def mustFloat64 : Option GoValue → Except Panic Float64
  | some (.float64 f) => .ok f
  | _ => .error (.interfaceConversion "float64")

/-! ## Query resolvers -/

/-- The loop of the product resolver:
`for _, product := range products { if int(product.ID) == id { return product, nil } }`. -/
def productLoop (id : Int) : List Product → Option Product
  | [] => none
  | product :: rest => if product.ID = id then some product else productLoop id rest

/-- Resolver of the query field `product` (graphQl.go lines 74-85). -/
def productResolve (store : List Product) (p : ResolveParams) :
    Except Panic (Resolved (Option Product)) :=
  let (id, ok) := assertInt (p.arg "id")
  if ok then
    match productLoop id store with
    | some product => .ok ⟨some product, none, store⟩
    | none => .ok ⟨none, none, store⟩
  else
    .ok ⟨none, none, store⟩

/-- Resolver of the query field `list` (lines 90-92): `return products, nil`. -/
def listResolve (store : List Product) (_params : ResolveParams) :
    Except Panic (Resolved (List Product)) :=
  .ok ⟨store, none, store⟩

/-! ## Mutation resolvers -/

/-- Resolver of the mutation field `create` (lines 114-124).  `draw` is the
value returned by `rand.Intn(100000)`. -/
def createResolve (draw : Int) (store : List Product) (params : ResolveParams) :
    Except Panic (Resolved Product) :=
  match mustString (params.arg "name") with
  | .error e => .error e
  | .ok name =>
    match mustString (params.arg "info") with
    | .error e => .error e
    | .ok info =>
      match mustFloat64 (params.arg "price") with
      | .error e => .error e
      | .ok price =>
        let product : Product := { ID := draw, Name := name, Info := info, Price := price }
        .ok ⟨product, none, store ++ [product]⟩

/-- The three conditional field writes of update on the matched cell
`products[i]` (lines 151-159). -/
def applyUpdate (name : String × Bool) (info : String × Bool) (price : Float64 × Bool)
    (p : Product) : Product :=
  let p1 := if name.2 then { p with Name := name.1 } else p
  let p2 := if info.2 then { p1 with Info := info.1 } else p1
  if price.2 then { p2 with Price := price.1 } else p2

/-- The loop of update (lines 149-163): at the first cell whose ID equals `id`
the supplied fields are written, the cell is copied to `product`, and the
loop breaks.  Returns `product` and the slice contents. -/
def updateLoop (id : Int) (name : String × Bool) (info : String × Bool)
    (price : Float64 × Bool) (product : Product) : List Product → Product × List Product
  | [] => (product, [])
  | p :: rest =>
    if id = p.ID then
      let q := applyUpdate name info price p
      (q, q :: rest)
    else
      let r := updateLoop id name info price product rest
      (r.1, p :: r.2)

/-- Resolver of the mutation field `update` (lines 143-165). -/
def updateResolve (store : List Product) (params : ResolveParams) :
    Except Panic (Resolved Product) :=
  let id := (assertInt (params.arg "id")).1
  let name := assertString (params.arg "name")
  let info := assertString (params.arg "info")
  let price := assertFloat64 (params.arg "price")
  let r := updateLoop id name info price zeroProduct store
  .ok ⟨r.1, none, r.2⟩

/-- State of the delete loop.  `arr` holds the cells of the backing array
that the `range` clause covers (as many as the slice was long when the loop
started); `len` is the current `len(products)`; `product` is the local. -/
structure DeleteState where
  arr : List Product
  len : Nat
  product : Product
deriving DecidableEq, Repr

/-- One iteration of the delete loop at index `i` (lines 179-185).
`p` is read from cell `i` of the backing array through the slice header the
`range` clause captured.  On a match, `products[i]` is bounds-checked against
the current length; then `append(products[:i], products[i+1:]...)` moves the
cells `i+1 .. len-1` down by one inside the same backing array (the result
fits the capacity) and the length drops by one; the cell `len-1` keeps its
old content. -/
def deleteBody (id : Int) (i : Nat) (s : DeleteState) : Except Panic DeleteState :=
  let p := s.arr.getD i zeroProduct
  if id = p.ID then
    if i < s.len then
      .ok { arr := s.arr.take i ++ (s.arr.drop (i + 1)).take (s.len - (i + 1))
                     ++ s.arr.drop (s.len - 1),
            len := s.len - 1,
            product := s.arr.getD i zeroProduct }
    else
      .error (.indexOutOfRange i s.len)
  else
    .ok s

/-- The delete loop `for i, p := range products`, with `k` iterations left
and `i` the next index; the iteration count was fixed when the loop started. -/
def deleteLoop (id : Int) : Nat → Nat → DeleteState → Except Panic DeleteState
  | 0, _, s => .ok s
  | k + 1, i, s =>
    match deleteBody id i s with
    | .error e => .error e
    | .ok s1 => deleteLoop id k (i + 1) s1

/-- Resolver of the mutation field `delete` (lines 176-188). -/
def deleteResolve (store : List Product) (params : ResolveParams) :
    Except Panic (Resolved Product) :=
  let id := (assertInt (params.arg "id")).1
  match deleteLoop id store.length 0 ⟨store, store.length, zeroProduct⟩ with
  | .error e => .error e
  | .ok s => .ok ⟨s.product, none, s.arr.take s.len⟩

/-- The argument map of a request that supplies only `id`. -/
def idArgs (id : Int) : ResolveParams := ⟨[("id", .int id)]⟩

/-- The argument map of `create(name: "X", info: "Y", price: 9.99)`. -/
def createArgs : ResolveParams :=
  ⟨[("name", .string "X"), ("info", .string "Y"), ("price", .float64 f9_99)]⟩

/-- The argument map of `create(name: "X", price: 9.99)`, info omitted. -/
def createArgsNoInfo : ResolveParams :=
  ⟨[("name", .string "X"), ("price", .float64 f9_99)]⟩

/-- The record `create(name: "X", info: "Y", price: 9.99)` builds when
`rand.Intn(100000)` returns `draw`. -/
def created (draw : Int) : Product := { ID := draw, Name := "X", Info := "Y", Price := f9_99 }

/-- The seed store after one create that drew id 1. -/
def seedPlus1 : List Product := products ++ [created 1]

/-- The seed store after two creates that drew ids 1 and 7. -/
def seedPlus1And7 : List Product := products ++ [created 1, created 7]

/-- The seed store after two creates that drew ids 3 and 7. -/
def seedPlus3And7 : List Product := products ++ [created 3, created 7]

/-- The seed store after two creates that drew ids 3 and 9. -/
def seedPlus3And9 : List Product := products ++ [created 3, created 9]

end GraphQLAPI

namespace GraphQLAPI

/-! ## Auxiliary facts -/

theorem exists_first_match (K : Int) (store : List Product)
    (h : ∃ q ∈ store, q.ID = K) :
    ∃ pre r post, store = pre ++ r :: post ∧ r.ID = K ∧ ∀ q ∈ pre, q.ID ≠ K := by
  induction store with
  | nil => simp at h
  | cons a rest ih =>
    by_cases ha : a.ID = K
    · exact ⟨[], a, rest, rfl, ha, by simp⟩
    · have h2 : ∃ q ∈ rest, q.ID = K := by
        obtain ⟨q, hq, hqK⟩ := h
        rcases List.mem_cons.mp hq with rfl | hq
        · exact absurd hqK ha
        · exact ⟨q, hq, hqK⟩
      obtain ⟨pre, r, post, hs, hr, hpre⟩ := ih h2
      refine ⟨a :: pre, r, post, by simp [hs], hr, ?_⟩
      intro q hq
      rcases List.mem_cons.mp hq with rfl | hq
      · exact ha
      · exact hpre q hq

theorem productLoop_first (id : Int) (pre : List Product) (r : Product) (post : List Product)
    (hr : r.ID = id) (hpre : ∀ q ∈ pre, q.ID ≠ id) :
    productLoop id (pre ++ r :: post) = some r := by
  induction pre with
  | nil => simp [productLoop, hr]
  | cons a pre ih =>
    have ha : a.ID ≠ id := hpre a (by simp)
    simp only [List.cons_append, productLoop, if_neg ha]
    exact ih (fun q hq => hpre q (List.mem_cons_of_mem _ hq))

theorem productLoop_absent (id : Int) (store : List Product)
    (h : ∀ q ∈ store, q.ID ≠ id) : productLoop id store = none := by
  induction store with
  | nil => rfl
  | cons a rest ih =>
    have ha : a.ID ≠ id := h a (by simp)
    simp only [productLoop, if_neg ha]
    exact ih (fun q hq => h q (List.mem_cons_of_mem _ hq))

theorem updateLoop_first (id : Int) (name : String × Bool) (info : String × Bool)
    (price : Float64 × Bool) (z : Product) (pre : List Product) (r : Product)
    (post : List Product) (hr : r.ID = id) (hpre : ∀ q ∈ pre, q.ID ≠ id) :
    updateLoop id name info price z (pre ++ r :: post)
      = (applyUpdate name info price r, pre ++ applyUpdate name info price r :: post) := by
  induction pre with
  | nil => simp [updateLoop, hr]
  | cons a pre ih =>
    have ha : ¬ id = a.ID := fun e => hpre a (by simp) e.symm
    have e := ih (fun q hq => hpre q (List.mem_cons_of_mem _ hq))
    simp only [List.cons_append, updateLoop, if_neg ha, List.append_eq, e]

theorem updateLoop_absent (id : Int) (name : String × Bool) (info : String × Bool)
    (price : Float64 × Bool) (z : Product) (store : List Product)
    (h : ∀ q ∈ store, q.ID ≠ id) :
    updateLoop id name info price z store = (z, store) := by
  induction store with
  | nil => rfl
  | cons a rest ih =>
    have ha : ¬ id = a.ID := fun e => h a (by simp) e.symm
    simp only [updateLoop, if_neg ha]
    rw [ih (fun q hq => h q (List.mem_cons_of_mem _ hq))]

/-- An iteration of the delete loop whose cell does not match changes nothing. -/
theorem deleteBody_skip (id : Int) (i : Nat) (s : DeleteState)
    (h : (s.arr.getD i zeroProduct).ID ≠ id) : deleteBody id i s = .ok s := by
  have h2 : ¬ id = (s.arr.getD i zeroProduct).ID := fun e => h e.symm
  simp only [deleteBody, if_neg h2]

/-- A run of iterations none of whose cells matches changes nothing. -/
theorem deleteLoop_skip (id : Int) :
    ∀ (k i : Nat) (s : DeleteState),
      (∀ j, i ≤ j → j < i + k → (s.arr.getD j zeroProduct).ID ≠ id) →
      deleteLoop id k i s = .ok s := by
  intro k
  induction k with
  | zero => intro i s _; rfl
  | succ k ih =>
    intro i s h
    have h0 := deleteBody_skip id i s (h i (Nat.le_refl i) (by omega))
    simp only [deleteLoop, h0]
    exact ih (i + 1) s (fun j h1 h2 => h j (by omega) (by omega))

/-- Splitting the delete loop after its first `a` iterations. -/
theorem deleteLoop_add (id : Int) :
    ∀ (a b i : Nat) (s : DeleteState),
      deleteLoop id (a + b) i s =
        match deleteLoop id a i s with
        | .error e => .error e
        | .ok s1 => deleteLoop id b (i + a) s1 := by
  intro a
  induction a with
  | zero => intro b i s; simp [deleteLoop]
  | succ a ih =>
    intro b i s
    have e : a + 1 + b = (a + b) + 1 := by omega
    rw [e]
    simp only [deleteLoop]
    cases hb : deleteBody id i s with
    | error e => rfl
    | ok s1 =>
      simp only []
      rw [ih b (i + 1) s1]
      have e2 : i + 1 + a = i + (a + 1) := by omega
      rw [e2]

theorem getD_mem_of_lt (l : List Product) (j : Nat) (h : j < l.length) :
    l.getD j zeroProduct ∈ l := by
  rw [List.getD_eq_getElem l zeroProduct h]
  exact List.getElem_mem h

/-- The iteration of the delete loop at the first matching cell. -/
theorem deleteBody_hit (K : Int) (pre : List Product) (r : Product) (post : List Product)
    (z : Product) (hr : r.ID = K) :
    deleteBody K pre.length ⟨pre ++ r :: post, pre.length + (post.length + 1), z⟩
      = .ok ⟨(pre ++ post) ++ (r :: post).drop post.length, pre.length + post.length, r⟩ := by
  have hget : (pre ++ r :: post).getD pre.length zeroProduct = r := by
    rw [List.getD_append_right _ _ _ _ (Nat.le_refl _)]
    simp
  have hlt : pre.length < pre.length + (post.length + 1) := by omega
  have e1 : pre.length + (post.length + 1) - (pre.length + 1) = post.length := by omega
  have e2 : pre.length + (post.length + 1) - 1 = pre.length + post.length := by omega
  have e3 : List.drop (pre.length + 1) (pre ++ r :: post) = post := by
    rw [List.drop_append]
    simp
  have e4 : List.drop (pre.length + post.length) (pre ++ r :: post)
      = List.drop post.length (r :: post) := by
    rw [List.drop_append]
  simp only [deleteBody, hget, hr, if_true, if_pos hlt, e1, e2, e3, e4,
    List.take_left, List.take_length, List.append_assoc]

/-- The delete loop on a store in which exactly one record, `r`, has the
requested id: the backing array ends as `pre ++ post` followed by one stale
cell, the length is one less, and the local holds `r`. -/
theorem deleteLoop_single (K : Int) (pre : List Product) (r : Product) (post : List Product)
    (z : Product) (hr : r.ID = K) (hpre : ∀ q ∈ pre, q.ID ≠ K) (hpost : ∀ q ∈ post, q.ID ≠ K) :
    deleteLoop K (pre ++ r :: post).length 0
        ⟨pre ++ r :: post, (pre ++ r :: post).length, z⟩
      = .ok ⟨(pre ++ post) ++ (r :: post).drop post.length, pre.length + post.length, r⟩ := by
  have hlen : (pre ++ r :: post).length = pre.length + (post.length + 1) := by simp
  rw [hlen, deleteLoop_add]
  have h1 : deleteLoop K pre.length 0 ⟨pre ++ r :: post, pre.length + (post.length + 1), z⟩
      = .ok ⟨pre ++ r :: post, pre.length + (post.length + 1), z⟩ := by
    apply deleteLoop_skip
    intro j _ hj
    have hj2 : j < pre.length := by omega
    show ((pre ++ r :: post).getD j zeroProduct).ID ≠ K
    rw [List.getD_append _ _ _ _ hj2]
    exact hpre _ (getD_mem_of_lt pre j hj2)
  rw [h1]
  simp only [Nat.zero_add, deleteLoop, deleteBody_hit K pre r post z hr]
  apply deleteLoop_skip
  intro j hj1 hj2
  show (((pre ++ post) ++ (r :: post).drop post.length).getD j zeroProduct).ID ≠ K
  have hpos : 0 < post.length := by omega
  rw [List.append_assoc, List.getD_append_right _ _ _ _ (by omega)]
  apply hpost
  have hsub : ∀ q ∈ post ++ (r :: post).drop post.length, q ∈ post := by
    intro q hq
    rcases List.mem_append.mp hq with h | h
    · exact h
    · have e : (r :: post).drop post.length = post.drop (post.length - 1) := by
        cases hp : post.length with
        | zero => omega
        | succ n => simp
      rw [e] at h
      exact List.mem_of_mem_drop h
  apply hsub
  apply getD_mem_of_lt
  simp
  omega

/-- The delete resolver on a store in which exactly one record has the id. -/
theorem deleteResolve_single (K : Int) (pre : List Product) (r : Product) (post : List Product)
    (params : ResolveParams) (hid : params.arg "id" = some (.int K))
    (hr : r.ID = K) (hpre : ∀ q ∈ pre, q.ID ≠ K) (hpost : ∀ q ∈ post, q.ID ≠ K) :
    deleteResolve (pre ++ r :: post) params = .ok ⟨r, none, pre ++ post⟩ := by
  have hl : pre.length + post.length = (pre ++ post).length := by simp
  simp only [deleteResolve, hid, assertInt, deleteLoop_single K pre r post zeroProduct hr hpre hpost]
  rw [hl, List.take_left]

/-- The delete resolver on a store in which no record has the id. -/
theorem deleteResolve_absent (K : Int) (store : List Product) (params : ResolveParams)
    (hid : params.arg "id" = some (.int K)) (h : ∀ q ∈ store, q.ID ≠ K) :
    deleteResolve store params = .ok ⟨zeroProduct, none, store⟩ := by
  have hs : deleteLoop K store.length 0 ⟨store, store.length, zeroProduct⟩
      = .ok ⟨store, store.length, zeroProduct⟩ := by
    apply deleteLoop_skip
    intro j _ hj
    exact h _ (getD_mem_of_lt store j (by omega))
  simp only [deleteResolve, hid, assertInt, hs, List.take_length]

/-- A store with exactly one record of id `K` splits around that record. -/
theorem exists_single_match (K : Int) (store : List Product)
    (h : store.countP (fun q => decide (q.ID = K)) = 1) :
    ∃ pre r post, store = pre ++ r :: post ∧ r.ID = K ∧
      (∀ q ∈ pre, q.ID ≠ K) ∧ (∀ q ∈ post, q.ID ≠ K) := by
  have hex : ∃ q ∈ store, q.ID = K := by
    have hpos : 0 < store.countP (fun q => decide (q.ID = K)) := by omega
    obtain ⟨q, hq, hqK⟩ := List.countP_pos_iff.mp hpos
    exact ⟨q, hq, by simpa using hqK⟩
  obtain ⟨pre, r, post, hs, hr, hpre⟩ := exists_first_match K store hex
  refine ⟨pre, r, post, hs, hr, hpre, ?_⟩
  subst hs
  have hc : (r :: post).countP (fun q => decide (q.ID = K))
      = post.countP (fun q => decide (q.ID = K)) + 1 := by
    rw [List.countP_cons]
    simp [hr]
  rw [List.countP_append, hc] at h
  have h0 : post.countP (fun q => decide (q.ID = K)) = 0 := by omega
  intro q hq hqK
  have := List.countP_eq_zero.mp h0 q hq
  simp [hqK] at this

/-- The product resolver at the first record of the requested id. -/
theorem productResolve_first (id : Int) (pre : List Product) (r : Product) (post : List Product)
    (p : ResolveParams) (hid : p.arg "id" = some (.int id))
    (hr : r.ID = id) (hpre : ∀ q ∈ pre, q.ID ≠ id) :
    productResolve (pre ++ r :: post) p = .ok ⟨some r, none, pre ++ r :: post⟩ := by
  simp only [productResolve, hid, assertInt, if_true, productLoop_first id pre r post hr hpre]

/-- The product resolver when no record has the requested id. -/
theorem productResolve_absent (id : Int) (store : List Product) (p : ResolveParams)
    (hid : p.arg "id" = some (.int id)) (habs : ∀ q ∈ store, q.ID ≠ id) :
    productResolve store p = .ok ⟨none, none, store⟩ := by
  simp only [productResolve, hid, assertInt, if_true, productLoop_absent id store habs]

/-! ## The product resolver -/

/-- Claim C1.  For every store: when the id argument is an integer and some
record has that id, the product resolver returns the first such record (the
one preceded only by records of other ids); when no record has the id it
returns null; when the id argument is missing or not an integer it returns
null; in every case the error is nil and the store is untouched.  On the seed
store, product(2) is the record named "product 2" with price 632. -/
theorem product_returns_first_match (store : List Product) (p : ResolveParams) :
    (∀ id pre r post, p.arg "id" = some (.int id) → store = pre ++ r :: post →
        r.ID = id → (∀ q ∈ pre, q.ID ≠ id) →
        productResolve store p = .ok ⟨some r, none, store⟩) ∧
    (∀ id, p.arg "id" = some (.int id) → (∀ q ∈ store, q.ID ≠ id) →
        productResolve store p = .ok ⟨none, none, store⟩) ∧
    ((∀ id, p.arg "id" ≠ some (.int id)) →
        productResolve store p = .ok ⟨none, none, store⟩) ∧
    productResolve products (idArgs 2)
      = .ok ⟨some ⟨2, "product 2", "product2 description", f632⟩, none, products⟩ := by
  refine ⟨?_, ?_, ?_, rfl⟩
  · intro id pre r post hid hs hr hpre
    subst hs
    exact productResolve_first id pre r post p hid hr hpre
  · intro id hid habs
    exact productResolve_absent id store p hid habs
  · intro hno
    have h : assertInt (p.arg "id") = (0, false) := by
      cases hv : p.arg "id" with
      | none => rfl
      | some v =>
        cases v with
        | int n => exact absurd hv (hno n)
        | string _ => rfl
        | float64 _ => rfl
        | bool _ => rfl
    simp only [productResolve, h]
    rfl

/-- Witness of C1 on the seed store: product(3) finds the third record,
product(4) finds nothing, and a request without id yields null. -/
theorem product_returns_first_match_witness :
    productResolve products (idArgs 3)
        = .ok ⟨some ⟨3, "product 3", "product3 description", f80⟩, none, products⟩ ∧
    productResolve products (idArgs 4) = .ok ⟨none, none, products⟩ ∧
    productResolve products ⟨[]⟩ = .ok ⟨none, none, products⟩ :=
  ⟨(product_returns_first_match products (idArgs 3)).1 3
      [⟨1, "product 1", "product1 description", f700⟩,
       ⟨2, "product 2", "product2 description", f632⟩]
      ⟨3, "product 3", "product3 description", f80⟩ [] rfl rfl rfl (by decide),
   (product_returns_first_match products (idArgs 4)).2.1 4 rfl (by decide),
   (product_returns_first_match products ⟨[]⟩).2.2.1 (by intro id h; cases h)⟩

/-! ## The create resolver -/

/-- Claim C3 (the code departs from it).  A create request that supplies name
and price but omits info does not return: the single-value assertion
`params.Args["info"].(string)` panics, whatever the store and the drawn id. -/
theorem create_without_info_panics (draw : Int) (store : List Product) :
    createResolve draw store createArgsNoInfo = .error (.interfaceConversion "string") := by
  rfl

/-- Claim C6.  With `draw` an arbitrary result of `rand.Intn(100000)` and a
create request carrying name X, info Y and price P: create returns a record
`new` with those three fields and an id in [0, 100000), the store afterwards
is the previous store followed by `new`, the list resolver then returns
exactly that sequence, and on every store the list resolver returns the store
contents in order. -/
theorem create_appends_record (draw : Int) (store : List Product) (params lp : ResolveParams)
    (X Y : String) (P : Float64)
    (hdraw : 0 ≤ draw ∧ draw < 100000)
    (hname : params.arg "name" = some (.string X))
    (hinfo : params.arg "info" = some (.string Y))
    (hprice : params.arg "price" = some (.float64 P)) :
    ∃ new : Product,
      createResolve draw store params = .ok ⟨new, none, store ++ [new]⟩ ∧
      new.Name = X ∧ new.Info = Y ∧ new.Price = P ∧ 0 ≤ new.ID ∧ new.ID < 100000 ∧
      listResolve (store ++ [new]) lp = .ok ⟨store ++ [new], none, store ++ [new]⟩ ∧
      ∀ s : List Product, listResolve s lp = .ok ⟨s, none, s⟩ := by
  refine ⟨⟨draw, X, Y, P⟩, ?_, rfl, rfl, rfl, hdraw.1, hdraw.2, rfl, fun _ => rfl⟩
  simp only [createResolve, hname, hinfo, hprice, mustString, mustFloat64]

/-- Witness of C6: a create on the seed store that drew 4711. -/
theorem create_appends_record_witness :
    ∃ new : Product,
      createResolve 4711 products createArgs = .ok ⟨new, none, products ++ [new]⟩ ∧
      new.Name = "X" ∧ new.Info = "Y" ∧ new.Price = f9_99 ∧ 0 ≤ new.ID ∧ new.ID < 100000 ∧
      listResolve (products ++ [new]) ⟨[]⟩ = .ok ⟨products ++ [new], none, products ++ [new]⟩ ∧
      ∀ s : List Product, listResolve s ⟨[]⟩ = .ok ⟨s, none, s⟩ :=
  create_appends_record 4711 products createArgs ⟨[]⟩ "X" "Y" f9_99 (by decide) rfl rfl rfl

/-! ## The update resolver -/

/-- Claim C4.  For every store with a record of id K and every choice of
which of name, info, price the request supplies: the first record of id K,
`r`, is replaced in place by `r2`, which has the id of `r`, each supplied
field taken from the request and each other field taken from `r`; the records
before and after it are untouched (so order and length are kept); update
returns `r2`; and product(K) afterwards returns `r2`. -/
theorem update_overwrites_supplied_fields (store : List Product) (params : ResolveParams)
    (K : Int) (name? info? : Option String) (price? : Option Float64)
    (hid : params.arg "id" = some (.int K))
    (hname : params.arg "name" = name?.map GoValue.string)
    (hinfo : params.arg "info" = info?.map GoValue.string)
    (hprice : params.arg "price" = price?.map GoValue.float64)
    (hK : ∃ q ∈ store, q.ID = K) :
    ∃ pre r post r2, store = pre ++ r :: post ∧ r.ID = K ∧ (∀ q ∈ pre, q.ID ≠ K) ∧
      r2 = ⟨r.ID, name?.getD r.Name, info?.getD r.Info, price?.getD r.Price⟩ ∧
      updateResolve store params = .ok ⟨r2, none, pre ++ r2 :: post⟩ ∧
      (pre ++ r2 :: post).length = store.length ∧
      productResolve (pre ++ r2 :: post) (idArgs K) = .ok ⟨some r2, none, pre ++ r2 :: post⟩ := by
  obtain ⟨pre, r, post, hs, hr, hpre⟩ := exists_first_match K store hK
  refine ⟨pre, r, post, _, hs, hr, hpre, rfl, ?_, ?_, ?_⟩
  · subst hs
    simp only [updateResolve, hid, hname, hinfo, hprice, assertInt,
      updateLoop_first K _ _ _ zeroProduct pre r post hr hpre]
    cases name? <;> cases info? <;> cases price? <;> rfl
  · subst hs
    simp
  · exact productResolve_first K pre _ post (idArgs K) rfl hr hpre

/-- Witness of C4: update(id: 2, price: 9.99) on the seed store. -/
theorem update_overwrites_supplied_fields_witness :
    ∃ pre r post r2, products = pre ++ r :: post ∧ r.ID = 2 ∧ (∀ q ∈ pre, q.ID ≠ 2) ∧
      r2 = ⟨r.ID, (none : Option String).getD r.Name, (none : Option String).getD r.Info,
            (some f9_99).getD r.Price⟩ ∧
      updateResolve products ⟨[("id", .int 2), ("price", .float64 f9_99)]⟩
        = .ok ⟨r2, none, pre ++ r2 :: post⟩ ∧
      (pre ++ r2 :: post).length = products.length ∧
      productResolve (pre ++ r2 :: post) (idArgs 2) = .ok ⟨some r2, none, pre ++ r2 :: post⟩ :=
  update_overwrites_supplied_fields products ⟨[("id", .int 2), ("price", .float64 f9_99)]⟩ 2
    none none (some f9_99) rfl rfl rfl rfl
    ⟨⟨2, "product 2", "product2 description", f632⟩, by decide, rfl⟩

/-- Claim C8.  For every store and every id K that no record has, whatever
else the request carries: update and delete each return the zero-valued
record (id 0, empty name and info, price 0) with a nil error, and leave the
store exactly as it was. -/
theorem update_delete_absent_id (store : List Product) (params : ResolveParams) (K : Int)
    (hid : params.arg "id" = some (.int K)) (habs : ∀ q ∈ store, q.ID ≠ K) :
    updateResolve store params = .ok ⟨zeroProduct, none, store⟩ ∧
    deleteResolve store params = .ok ⟨zeroProduct, none, store⟩ ∧
    zeroProduct = ⟨0, "", "", ⟨0⟩⟩ := by
  refine ⟨?_, deleteResolve_absent K store params hid habs, rfl⟩
  simp only [updateResolve, hid, assertInt, updateLoop_absent K _ _ _ zeroProduct store habs]

/-- Witness of C8: id 4 on the seed store, with a name supplied as well. -/
theorem update_delete_absent_id_witness :
    updateResolve products ⟨[("id", .int 4), ("name", .string "X")]⟩
        = .ok ⟨zeroProduct, none, products⟩ ∧
    deleteResolve products ⟨[("id", .int 4), ("name", .string "X")]⟩
        = .ok ⟨zeroProduct, none, products⟩ ∧
    zeroProduct = ⟨0, "", "", ⟨0⟩⟩ :=
  update_delete_absent_id products ⟨[("id", .int 4), ("name", .string "X")]⟩ 4 rfl (by decide)

/-! ## The delete resolver -/

/-- Claim C9.  For every store whose ids are pairwise distinct and every id K
present in it: delete ends with the store equal to the original sequence with
the one record of id K taken out, the others in their original order; it
returns that record as it was; and the ids are still pairwise distinct. -/
theorem delete_distinct_ids (store : List Product) (params : ResolveParams) (K : Int)
    (hid : params.arg "id" = some (.int K))
    (hnodup : (store.map Product.ID).Nodup)
    (hK : ∃ q ∈ store, q.ID = K) :
    ∃ pre r post, store = pre ++ r :: post ∧ r.ID = K ∧
      (∀ q ∈ pre ++ post, q.ID ≠ K) ∧
      deleteResolve store params = .ok ⟨r, none, pre ++ post⟩ ∧
      ((pre ++ post).map Product.ID).Nodup := by
  obtain ⟨pre, r, post, hs, hr, hpre⟩ := exists_first_match K store hK
  subst hs
  have hsub : List.Sublist ((pre ++ post).map Product.ID)
      ((pre ++ r :: post).map Product.ID) :=
    List.Sublist.map _ (List.Sublist.append (List.Sublist.refl pre) (List.sublist_cons_self r post))
  have hpost : ∀ q ∈ post, q.ID ≠ K := by
    intro q hq hqK
    rw [List.map_append, List.map_cons] at hnodup
    have h2 := (List.nodup_cons.mp (List.nodup_append.mp hnodup).2.1).1
    apply h2
    rw [hr, ← hqK]
    exact List.mem_map_of_mem _ hq
  refine ⟨pre, r, post, rfl, hr, ?_, deleteResolve_single K pre r post params hid hr hpre hpost,
    hnodup.sublist hsub⟩
  intro q hq
  rcases List.mem_append.mp hq with h | h
  · exact hpre q h
  · exact hpost q h

/-- Witness of C9: delete(id: 2) on the seed store. -/
theorem delete_distinct_ids_witness :
    ∃ pre r post, products = pre ++ r :: post ∧ r.ID = 2 ∧
      (∀ q ∈ pre ++ post, q.ID ≠ 2) ∧
      deleteResolve products (idArgs 2) = .ok ⟨r, none, pre ++ post⟩ ∧
      ((pre ++ post).map Product.ID).Nodup :=
  delete_distinct_ids products (idArgs 2) 2 rfl (by decide)
    ⟨⟨2, "product 2", "product2 description", f632⟩, by decide, rfl⟩

/-- Claim C2 (the code departs from it).  On the seed store after two creates
that drew ids 1 and 7, delete(id: 1) removes both records of id 1, the seed
record and the created one, and returns the created one, not the first. -/
theorem delete_removes_later_duplicate :
    createResolve 1 products createArgs = .ok ⟨created 1, none, seedPlus1⟩ ∧
    createResolve 7 seedPlus1 createArgs = .ok ⟨created 7, none, seedPlus1And7⟩ ∧
    deleteResolve seedPlus1And7 (idArgs 1)
      = .ok ⟨created 1, none,
          [⟨2, "product 2", "product2 description", f632⟩,
           ⟨3, "product 3", "product3 description", f80⟩, created 7]⟩ := by
  refine ⟨rfl, rfl, rfl⟩

/-- Claim C10 (the code departs from it).  On the seed store after one create
that drew id 1, delete(id: 1) does not run to completion: at index 3 the
range loop reads the stale last cell, which matches, and `products[3]` is
evaluated when the slice has shrunk to length 2. -/
theorem delete_index_out_of_range :
    createResolve 1 products createArgs = .ok ⟨created 1, none, seedPlus1⟩ ∧
    deleteResolve seedPlus1 (idArgs 1) = .error (.indexOutOfRange 3 2) := by
  refine ⟨rfl, rfl⟩

/-- Claim C5 as stated fails when two records share the id: on the seed store
after two creates that drew ids 3 and 7, id 3 is present, delete(id: 3)
succeeds, and product(3) afterwards still returns a record, not null. -/
theorem delete_then_product_counterexample :
    (∃ q ∈ seedPlus3And7, q.ID = 3) ∧
    ∃ out, deleteResolve seedPlus3And7 (idArgs 3) = .ok out ∧
      productResolve out.products (idArgs 3) = .ok ⟨some (created 3), none, out.products⟩ ∧
      productResolve out.products (idArgs 3) ≠ .ok ⟨none, none, out.products⟩ := by
  refine ⟨⟨created 3, by decide, rfl⟩, ?_⟩
  refine ⟨⟨⟨3, "product 3", "product3 description", f80⟩, none,
    [⟨1, "product 1", "product1 description", f700⟩,
     ⟨2, "product 2", "product2 description", f632⟩, created 3, created 7]⟩, rfl, rfl, ?_⟩
  intro h
  have h2 : productResolve
      [⟨1, "product 1", "product1 description", f700⟩,
       ⟨2, "product 2", "product2 description", f632⟩, created 3, created 7] (idArgs 3)
      = .ok ⟨some (created 3), none, _⟩ := rfl
  rw [h2] at h
  cases h

/-- Claim C5, amended.  For every store in which exactly one record has id K:
delete(K) succeeds, product(K) afterwards returns null with a nil error, and
the list resolver's result is exactly one record shorter than before. -/
theorem delete_then_product_null (store : List Product) (params lp : ResolveParams) (K : Int)
    (hid : params.arg "id" = some (.int K))
    (hone : store.countP (fun q => decide (q.ID = K)) = 1) :
    ∃ out before after,
      deleteResolve store params = .ok out ∧
      productResolve out.products params = .ok ⟨none, none, out.products⟩ ∧
      listResolve store lp = .ok before ∧
      listResolve out.products lp = .ok after ∧
      after.value.length + 1 = before.value.length := by
  obtain ⟨pre, r, post, hs, hr, hpre, hpost⟩ := exists_single_match K store hone
  subst hs
  refine ⟨⟨r, none, pre ++ post⟩, ⟨pre ++ r :: post, none, pre ++ r :: post⟩,
    ⟨pre ++ post, none, pre ++ post⟩,
    deleteResolve_single K pre r post params hid hr hpre hpost, ?_, rfl, rfl, ?_⟩
  · apply productResolve_absent K (pre ++ post) params hid
    intro q hq
    rcases List.mem_append.mp hq with h | h
    · exact hpre q h
    · exact hpost q h
  · simp
    omega

/-- Witness of the amended C5: delete(id: 1) on the seed store. -/
theorem delete_then_product_null_witness :
    ∃ out before after,
      deleteResolve products (idArgs 1) = .ok out ∧
      productResolve out.products (idArgs 1) = .ok ⟨none, none, out.products⟩ ∧
      listResolve products ⟨[]⟩ = .ok before ∧
      listResolve out.products ⟨[]⟩ = .ok after ∧
      after.value.length + 1 = before.value.length :=
  delete_then_product_null products (idArgs 1) ⟨[]⟩ 1 rfl (by decide)

/-- Claim C7 as stated fails when two records share the id: on the seed store
after two creates that drew ids 3 and 9, id 3 is present, the first
delete(id: 3) succeeds, and the second returns the created record, not the
zero-valued one, and shortens the store again. -/
theorem delete_twice_counterexample :
    (∃ q ∈ seedPlus3And9, q.ID = 3) ∧
    ∃ first second,
      deleteResolve seedPlus3And9 (idArgs 3) = .ok first ∧
      deleteResolve first.products (idArgs 3) = .ok second ∧
      second.value = created 3 ∧ second.value ≠ zeroProduct ∧
      second.products.length + 1 = first.products.length ∧
      second.products ≠ first.products := by
  refine ⟨⟨created 3, by decide, rfl⟩, ?_⟩
  refine ⟨⟨⟨3, "product 3", "product3 description", f80⟩, none,
      [⟨1, "product 1", "product1 description", f700⟩,
       ⟨2, "product 2", "product2 description", f632⟩, created 3, created 9]⟩,
    ⟨created 3, none,
      [⟨1, "product 1", "product1 description", f700⟩,
       ⟨2, "product 2", "product2 description", f632⟩, created 9]⟩,
    rfl, rfl, rfl, by decide, rfl, by decide⟩

/-- Claim C7, amended.  For every store in which exactly one record has id K:
the first delete(K) succeeds, and a second delete(K) right after it returns
the zero-valued record (id 0, empty name and info, price 0) with a nil error
and leaves the store, hence its length, exactly as the first delete left it. -/
theorem delete_twice (store : List Product) (params : ResolveParams) (K : Int)
    (hid : params.arg "id" = some (.int K))
    (hone : store.countP (fun q => decide (q.ID = K)) = 1) :
    ∃ first,
      deleteResolve store params = .ok first ∧
      first.products.length + 1 = store.length ∧
      deleteResolve first.products params = .ok ⟨zeroProduct, none, first.products⟩ ∧
      zeroProduct = ⟨0, "", "", ⟨0⟩⟩ := by
  obtain ⟨pre, r, post, hs, hr, hpre, hpost⟩ := exists_single_match K store hone
  subst hs
  refine ⟨⟨r, none, pre ++ post⟩, deleteResolve_single K pre r post params hid hr hpre hpost,
    ?_, ?_, rfl⟩
  · simp
    omega
  · apply deleteResolve_absent K (pre ++ post) params hid
    intro q hq
    rcases List.mem_append.mp hq with h | h
    · exact hpre q h
    · exact hpost q h

/-- Witness of the amended C7: delete(id: 3) twice on the seed store. -/
theorem delete_twice_witness :
    ∃ first,
      deleteResolve products (idArgs 3) = .ok first ∧
      first.products.length + 1 = products.length ∧
      deleteResolve first.products (idArgs 3) = .ok ⟨zeroProduct, none, first.products⟩ ∧
      zeroProduct = ⟨0, "", "", ⟨0⟩⟩ :=
  delete_twice products (idArgs 3) 3 rfl (by decide)

end GraphQLAPI
